import Mathlib

/-!
Verification of the inboxer mail store: a shallow embedding of the
in-memory backend (`memory_mail_store.go`), the GORM durable backend
(`gorm_mail_store.go`) and the mail manager (`mail_manager.go`),
together with theorems settling the frozen claims about them.

Modelling conventions:
* Go `time.Time` values are modelled as `Nat`; the zero value is `0`
  (`IsZero` becomes `= 0`, `Before` becomes `<`, `After` becomes `>`).
* Go maps (`map[string]*Mail`, `map[string]interface{}`) are modelled as
  association lists; the store map keyed by mail ID keeps the invariant
  that IDs are distinct, which theorems assume explicitly where needed.
* Go `nil` slices/maps versus empty ones are modelled with `Option`
  (`none` is Go `nil`), because several claims distinguish the two.
* Fallible Go functions returning `(T, error)` become
  `Except StoreErr T`; the error taxonomy of the spec (§7) is the
  `StoreErr` type, and each `errors.New`/`fmt.Errorf` site is mapped to
  its taxon by its message ("cannot be empty"/"cannot be nil" to
  `invalidArgument`, "not found" to `notFound`, marshal/unmarshal
  failures to `serialization`).
* `encoding/json` is Go standard library code, not part of this
  repository; it is modelled by executable encoders and decoders that
  are faithful on the payloads this system produces, restricted to
  strings without characters that `json.Marshal` escapes (no `"`, no
  backslash, no control or HTML-escaped characters).  Numeric
  attachment values are carried as their JSON literal token, since the
  store never inspects them.
-/

namespace Inboxer

/-- Attachment value as it exists inside the Go value
`map[string]interface{}` after JSON decoding: a number (kept as its
JSON literal token, since the store treats values as opaque), a string,
a boolean, or null.  Nested bags are omitted: no operation of the store
and no claim inspects the structure of a value. -/
inductive AttValue where
  | anum (lit : String)
  | astr (s : String)
  | abool (b : Bool)
  | anull
deriving DecidableEq, Repr

/-- The Mail record (`mail_manager.go`, `type Mail struct`).  `Tags` and
`Attachments` are `Option` so that a Go `nil` slice/map (`none`) stays
distinguishable from an empty one (`some []`). -/
structure Mail where
  ID : String
  SenderID : String
  RecipientID : String
  Title : String
  Content : String
  Attachments : Option (List (String × AttValue))
  ReadStatus : Bool
  CreateTime : Nat
  ExpireTime : Nat
  Tags : Option (List String)
deriving DecidableEq, Repr

/-- The query filter (`mail_manager.go`, `type MailFilter struct`). -/
structure MailFilter where
  SenderID : String
  RecipientID : String
  ReadStatus : Option Bool
  StartTime : Option Nat
  EndTime : Option Nat
  ExpiredOnly : Bool
  Tags : List String
deriving DecidableEq, Repr

/-- Error taxonomy of the spec (§7), covering the error values the
embedded operations can produce. -/
inductive StoreErr where
  | invalidArgument
  | notFound
  | serialization
deriving DecidableEq, Repr

/-- The row model of the durable backend (`gorm_mail_store.go`,
`type MailEntity struct`).  `Attachments` and `Tags` hold serialized
JSON text.  The GORM bookkeeping columns `CreatedAt`/`UpdatedAt` are
backend-internal and carry no logical content; they default to zero. -/
structure MailEntity where
  ID : String
  SenderID : String
  RecipientID : String
  Title : String
  Content : String
  Attachments : String
  ReadStatus : Bool
  CreateTime : Nat
  ExpireTime : Nat
  Tags : String
  CreatedAt : Nat := 0
  UpdatedAt : Nat := 0
deriving DecidableEq, Repr

/-- Go `range` over a possibly-nil slice: a nil slice iterates zero
times. -/
def tagsOf (m : Mail) : List String := m.Tags.getD []

/-- Go `range` over a possibly-nil attachment map. -/
def attsOf (m : Mail) : List (String × AttValue) := m.Attachments.getD []

/-! ## JSON encoding (model of `encoding/json` on the payloads the
store produces) -/

/-- The opening brace character, written via its code point. -/
def lbrace : Char := Char.ofNat 123

/-- The closing brace character, written via its code point. -/
def rbrace : Char := Char.ofNat 125

/-- A character that `json.Marshal` emits verbatim inside a string
literal: not a quote, not a backslash, not a control character, and not
one of the HTML-escaped characters. -/
def jsonPlainChar (c : Char) : Bool :=
  c != '"' && c != '\\' && 32 ≤ c.toNat && c != '<' && c != '>' && c != '&'

/-- A string that `json.Marshal` renders as itself between quotes. -/
def jsonPlainStr (s : String) : Bool := s.data.all jsonPlainChar

/-- Characters that may appear in a JSON number token. -/
def jsonNumChar (c : Char) : Bool :=
  c.isDigit || c = '-' || c = '+' || c = '.' || c = 'e' || c = 'E'

/-- Well-formedness of a numeric literal token carried by `AttValue.anum`:
nonempty and made of number characters only. -/
def numLitWF (lit : String) : Bool := lit.data ≠ [] && lit.data.all jsonNumChar

/-- Char-level rendering of a JSON string literal (plain subset: the
content is emitted verbatim between quotes). -/
def jstrChars (s : String) : List Char := '"' :: s.data ++ ['"']

/-- Char-level rendering of the comma-separated body of a JSON array of
strings. -/
def tagsBody : List String → List Char
  | [] => []
  | [t] => jstrChars t
  | t :: ts => jstrChars t ++ ',' :: tagsBody ts

/-- Model of `json.Marshal` on a non-nil `[]string` (the Tags column
text): the array literal. -/
def tagsJson (tags : List String) : String := String.mk ('[' :: tagsBody tags ++ [']'])

/-- Char-level rendering of an attachment value. -/
def attValChars : AttValue → List Char
  | .anum lit => lit.data
  | .astr s => jstrChars s
  | .abool true => ['t', 'r', 'u', 'e']
  | .abool false => ['f', 'a', 'l', 's', 'e']
  | .anull => ['n', 'u', 'l', 'l']

/-- Char-level rendering of the body of a JSON object of attachment
key/value pairs. -/
def attsBody : List (String × AttValue) → List Char
  | [] => []
  | [kv] => jstrChars kv.1 ++ ':' :: attValChars kv.2
  | kv :: kvs => jstrChars kv.1 ++ ':' :: attValChars kv.2 ++ ',' :: attsBody kvs

/-- Model of `json.Marshal` on a non-nil `map[string]interface{}` (the
Attachments column text): the object literal, entries in association
list order. -/
def attsJson (atts : List (String × AttValue)) : String :=
  String.mk (lbrace :: attsBody atts ++ [rbrace])

/-! ## JSON decoding (model of `json.Unmarshal` on the same subset) -/

/-- Parse one JSON string literal of the plain subset, returning the
content and the rest of the input. -/
def parseJStr : List Char → Option (String × List Char)
  | '"' :: rest =>
    match rest.dropWhile (fun c => c != '"') with
    | '"' :: r => some (String.mk (rest.takeWhile (fun c => c != '"')), r)
    | _ => none
  | _ => none

/-- Parse the elements of a nonempty JSON string array after the opening
bracket, fuelled by the input length. -/
def parseJStrs : Nat → List Char → Option (List String × List Char)
  | 0, _ => none
  | fuel + 1, cs =>
    match parseJStr cs with
    | none => none
    | some (s, r) =>
      match r with
      | ',' :: r2 =>
        match parseJStrs fuel r2 with
        | some (ss, r3) => some (s :: ss, r3)
        | none => none
      | ']' :: r2 => some ([s], r2)
      | _ => none

/-- Model of `json.Unmarshal` into `[]string` (plain subset): accepts
exactly the array literals `tagsJson` produces. -/
def jsonUnmarshalTags (s : String) : Option (List String) :=
  match s.data with
  | '[' :: ']' :: r => if r = [] then some [] else none
  | '[' :: rest =>
    match parseJStrs (rest.length + 1) rest with
    | some (ss, []) => some ss
    | _ => none
  | _ => none

/-- Consume an expected literal character sequence from the input. -/
def dropLit : List Char → List Char → Option (List Char)
  | [], cs => some cs
  | p :: ps, c :: cs => if c = p then dropLit ps cs else none
  | _ :: _, [] => none

/-- Parse one attachment value of the subset grammar: a string, `true`,
`false`, `null`, or a number token. -/
def parseAttVal (cs : List Char) : Option (AttValue × List Char) :=
  match cs with
  | [] => none
  | c :: _ =>
    if c = '"' then
      match parseJStr cs with
      | some (s, r) => some (.astr s, r)
      | none => none
    else
      match dropLit ['t', 'r', 'u', 'e'] cs with
      | some r => some (.abool true, r)
      | none =>
        match dropLit ['f', 'a', 'l', 's', 'e'] cs with
        | some r => some (.abool false, r)
        | none =>
          match dropLit ['n', 'u', 'l', 'l'] cs with
          | some r => some (.anull, r)
          | none =>
            match cs.takeWhile jsonNumChar with
            | [] => none
            | tok => some (.anum (String.mk tok), cs.dropWhile jsonNumChar)

/-- Parse the pairs of a nonempty JSON attachment object after the
opening brace, fuelled by the input length. -/
def parseAttPairs : Nat → List Char → Option (List (String × AttValue) × List Char)
  | 0, _ => none
  | fuel + 1, cs =>
    match parseJStr cs with
    | none => none
    | some (k, r) =>
      match r with
      | c :: r1 =>
        if c = ':' then
          match parseAttVal r1 with
          | none => none
          | some (v, r2) =>
            match r2 with
            | c2 :: r3 =>
              if c2 = ',' then
                match parseAttPairs fuel r3 with
                | some (ps, r4) => some ((k, v) :: ps, r4)
                | none => none
              else if c2 = rbrace then some ([(k, v)], r3)
              else none
            | [] => none
        else none
      | [] => none

/-- Model of `json.Unmarshal` into `map[string]interface{}` (plain
subset): accepts exactly the object literals `attsJson` produces. -/
def jsonUnmarshalAtts (s : String) : Option (List (String × AttValue)) :=
  match s.data with
  | c :: rest =>
    if c = lbrace then
      match rest with
      | [r] => if r = rbrace then some [] else none
      | _ =>
        match parseAttPairs (rest.length + 1) rest with
        | some (ps, []) => some ps
        | _ => none
    else none
  | [] => none

end Inboxer

namespace Inboxer

/-! ## The shared matching engine (`memory_mail_store.go`, `matchMail`) -/

/-- Transpilation of `matchMail`: the early-return chain becomes an
if-chain, and the tag search loop (set `hasTag`, `break` on first hit)
becomes `List.any`.  The `*MailFilter` argument is `Option` (`none` is
a nil filter), and `now` is the single per-query-call time. -/
def matchMail (m : Mail) (f? : Option MailFilter) (now : Nat) : Bool :=
  match f? with
  | none => true
  | some f =>
    if f.SenderID != "" && m.SenderID != f.SenderID then false
    else if f.RecipientID != "" && m.RecipientID != f.RecipientID then false
    else if (match f.ReadStatus with
             | some b => m.ReadStatus != b
             | none => false) then false
    else if (match f.StartTime with
             | some t => decide (m.CreateTime < t)
             | none => false) then false
    else if (match f.EndTime with
             | some t => decide (t < m.CreateTime)
             | none => false) then false
    else if f.ExpiredOnly && (m.ExpireTime = 0 || !(m.ExpireTime < now)) then false
    else if f.Tags.length > 0 &&
            !(f.Tags.any (fun ft => (tagsOf m).any (fun mt => ft == mt))) then false
    else true

/-! ## Mail/entity conversion (`gorm_mail_store.go`) -/

/-- Transpilation of `mailToEntity`.  The Go function can only fail when
`json.Marshal` fails, which cannot happen on values of the modelled
attachment domain, so the embedding is total. -/
def mailToEntity (m : Mail) : MailEntity :=
  { ID := m.ID
    SenderID := m.SenderID
    RecipientID := m.RecipientID
    Title := m.Title
    Content := m.Content
    ReadStatus := m.ReadStatus
    CreateTime := m.CreateTime
    ExpireTime := m.ExpireTime
    Attachments := match m.Attachments with
      | some atts => attsJson atts
      | none => "\x7b\x7d"
    Tags := match m.Tags with
      | some ts => tagsJson ts
      | none => "[]" }

/-- Transpilation of `entityToMail`: scalar columns are copied; a
non-empty `Attachments`/`Tags` column is deserialized (a decode failure
is the wrapped unmarshal error, `StoreErr.serialization`); an empty
column leaves the Go field nil (`none`). -/
def entityToMail (e : MailEntity) : Except StoreErr Mail := do
  let atts ← (if e.Attachments != "" then
      match jsonUnmarshalAtts e.Attachments with
      | some a => Except.ok (some a)
      | none => Except.error StoreErr.serialization
    else Except.ok none)
  let ts ← (if e.Tags != "" then
      match jsonUnmarshalTags e.Tags with
      | some t => Except.ok (some t)
      | none => Except.error StoreErr.serialization
    else Except.ok none)
  Except.ok
    { ID := e.ID
      SenderID := e.SenderID
      RecipientID := e.RecipientID
      Title := e.Title
      Content := e.Content
      ReadStatus := e.ReadStatus
      CreateTime := e.CreateTime
      ExpireTime := e.ExpireTime
      Attachments := atts
      Tags := ts }

/-! ## The durable backend's native filter (`gorm_mail_store.go`,
`QueryMails`, the chain of `Where` clauses) -/

/-- Boolean substring containment, the semantics of the SQL pattern
`LIKE '%' || pat || '%'` for a pattern text free of the SQL wildcard
characters (the concrete tags exercised below contain none). -/
def strHasSub (s pat : String) : Bool :=
  (List.range (s.data.length + 1)).any
    (fun i => (s.data.drop i).take pat.data.length == pat.data)

/-- The row predicate accumulated by `GormMailStore.QueryMails`: one SQL
`WHERE` conjunct per populated filter field.  Each tag contributes its
own conjunct `tags LIKE '%tag%'` (note: conjunct, and substring match
on the serialized tag array — both departures from the shared engine).
A nil filter adds no condition. -/
def gormMatchEntity (e : MailEntity) (f? : Option MailFilter) (now : Nat) : Bool :=
  match f? with
  | none => true
  | some f =>
    (f.SenderID == "" || e.SenderID == f.SenderID) &&
    (f.RecipientID == "" || e.RecipientID == f.RecipientID) &&
    (match f.ReadStatus with
     | some b => e.ReadStatus == b
     | none => true) &&
    (match f.StartTime with
     | some t => t ≤ e.CreateTime
     | none => true) &&
    (match f.EndTime with
     | some t => e.CreateTime ≤ t
     | none => true) &&
    (!f.ExpiredOnly || (e.ExpireTime != 0 && e.ExpireTime < now)) &&
    f.Tags.all (fun tag => strHasSub e.Tags tag)

/-! ## Sorting (both backends order by creation time, newest first) -/

/-- Insert into a list sorted by `key` descending, before the first
strictly-smaller element. -/
def insertDescBy (key : α → Nat) (a : α) : List α → List α
  | [] => [a]
  | b :: bs => if key b < key a then a :: b :: bs else b :: insertDescBy key a bs

/-- Deterministic model of the newest-`CreateTime`-first sort (Go:
`sort.Slice` with an `After` comparator; SQL: `ORDER BY create_time
DESC`).  Ties carry no contract (spec §4.1), so any sort by the same
key is a faithful model. -/
def sortDescBy (key : α → Nat) : List α → List α
  | [] => []
  | a :: as => insertDescBy key a (sortDescBy key as)

/-- Go slice expression `l[s:e]` for `0 ≤ s ≤ e ≤ len l`. -/
def goSlice (l : List α) (s e : Nat) : List α := (l.drop s).take (e - s)

end Inboxer

namespace Inboxer

/-! ## The in-memory backend (`memory_mail_store.go`)

The guarded map `mails map[string]*Mail` is modelled as a `List Mail`
keyed by the `ID` field (map iteration order is unspecified in Go, so
the list order is one admissible iteration order); map assignment
replaces the entry with the same key or appends a fresh one, and the
distinct-keys invariant of a map is assumed explicitly by the theorems
that need it. -/

/-- Map read `s.mails[id]`. -/
def findMail (st : List Mail) (id : String) : Option Mail :=
  st.find? (fun m => m.ID == id)

/-- Map write `s.mails[m.ID] = m`. -/
def putMail (st : List Mail) (m : Mail) : List Mail :=
  if st.any (fun x => x.ID == m.ID) then
    st.map (fun x => if x.ID == m.ID then m else x)
  else st ++ [m]

/-- Transpilation of the deep-copy helper `copyMail` (on values, a deep
copy is the identity; the nil checks of the Go code are kept so that
`none` demonstrably stays `none`). -/
def copyMail (m : Mail) : Mail :=
  { ID := m.ID
    SenderID := m.SenderID
    RecipientID := m.RecipientID
    Title := m.Title
    Content := m.Content
    ReadStatus := m.ReadStatus
    CreateTime := m.CreateTime
    ExpireTime := m.ExpireTime
    Tags := match m.Tags with
      | some ts => some ts
      | none => none
    Attachments := match m.Attachments with
      | some atts => some atts
      | none => none }

/-- Transpilation of `MemoryMailStore.CreateMail` on a non-nil mail.
`newId` stands for the value `idGen.GenerateID()` would produce.  The
result is `(the caller's mail object after the call, the new store
state, the returned id)` — the Go function mutates `mail.ID` in place
before copying. -/
def memCreateMail (st : List Mail) (m : Mail) (newId : String) :
    Mail × List Mail × String :=
  let m' := if m.ID = "" then { m with ID := newId } else m
  (m', putMail st (copyMail m'), m'.ID)

/-- Transpilation of `MemoryMailStore.GetMail`: no emptiness check on
the id; a missing key is the "not found" error. -/
def memGetMail (st : List Mail) (id : String) : Except StoreErr Mail :=
  match findMail st id with
  | some m => Except.ok (copyMail m)
  | none => Except.error StoreErr.notFound

/-- Transpilation of `MemoryMailStore.UpdateMail` on a non-nil mail. -/
def memUpdateMail (st : List Mail) (m : Mail) : Except StoreErr (List Mail) :=
  if m.ID = "" then Except.error StoreErr.invalidArgument
  else if st.any (fun x => x.ID == m.ID) then
    Except.ok (st.map (fun x => if x.ID == m.ID then copyMail m else x))
  else Except.error StoreErr.notFound

/-- Whether a mail is swept by `DeleteExpiredMails(t)`:
`!ExpireTime.IsZero() && ExpireTime.Before(beforeTime)`. -/
def isExpiredBefore (exp t : Nat) : Bool := exp != 0 && exp < t

/-- Transpilation of `MemoryMailStore.DeleteExpiredMails`: collect the
ids of the matching entries, delete those keys, return the count.  The
Go function always returns a nil error. -/
def memDeleteExpiredMails (st : List Mail) (t : Nat) :
    Except StoreErr (List Mail × Nat) :=
  let toDelete := (st.filter (fun m => isExpiredBefore m.ExpireTime t)).map (fun m => m.ID)
  Except.ok (st.filter (fun m => !(toDelete.contains m.ID)), toDelete.length)

/-- Pagination normalization shared by the query paths: `page <= 0`
becomes 1, `size <= 0` becomes 10.  Go ints are modelled as `Int`. -/
def normPage (page : Int) : Int := if page ≤ 0 then 1 else page

/-- Size half of the pagination normalization. -/
def normSize (size : Int) : Int := if size ≤ 0 then 10 else size

/-- The sort/slice tail shared by the in-memory query paths: sort the
matches newest-first, compute `start`/`end`, return the empty slice
when `start ≥ total`, else the clamped slice plus the total. -/
def paginateDesc (matched : List Mail) (page size : Int) : List Mail × Nat :=
  let sorted := sortDescBy (fun m => m.CreateTime) matched
  let total := sorted.length
  let start := (normPage page - 1) * normSize size
  let e := start + normSize size
  if (total : Int) ≤ start then ([], total)
  else
    let e' := if (total : Int) < e then (total : Int) else e
    (goSlice sorted start.toNat e'.toNat, total)

/-- Transpilation of `MemoryMailStore.GetMailsByRecipient`: note there
is no emptiness check on `recipientID`; the error is always nil. -/
def memGetMailsByRecipient (st : List Mail) (rid : String) (page size : Int) :
    Except StoreErr (List Mail × Nat) :=
  let matched := (st.filter (fun m => m.RecipientID == rid)).map copyMail
  Except.ok (paginateDesc matched page size)

/-- Transpilation of `MemoryMailStore.QueryMails`: filter with the
shared `matchMail` (with `now` fixed once for the call), sort
newest-first, paginate.  The error is always nil. -/
def memQueryMails (st : List Mail) (f? : Option MailFilter) (page size : Int)
    (now : Nat) : Except StoreErr (List Mail × Nat) :=
  let matched := (st.filter (fun m => matchMail m f? now)).map copyMail
  Except.ok (paginateDesc matched page size)

/-- Transpilation of `MemoryMailStore.CountUnreadMails`: no emptiness
check on `recipientID`; always succeeds. -/
def memCountUnreadMails (st : List Mail) (rid : String) : Except StoreErr Nat :=
  Except.ok (st.filter (fun m => m.RecipientID == rid && !m.ReadStatus)).length

/-- Transpilation of `MemoryMailStore.CountMailsWithAttachments`: no
emptiness check on `recipientID`; counts mails whose attachment map is
non-nil and non-empty; always succeeds. -/
def memCountMailsWithAttachments (st : List Mail) (rid : String) : Except StoreErr Nat :=
  Except.ok (st.filter (fun m =>
    m.RecipientID == rid && m.Attachments.isSome && (attsOf m).length > 0)).length

/-- Transpilation of `MemoryMailStore.ExportMailLogs` up to the final
`json.MarshalIndent` (export text formatting is out of scope, spec §1;
the serialized document is determined by this list): every match, no
pagination, sorted newest-first. -/
def memExportMails (st : List Mail) (f? : Option MailFilter) (now : Nat) : List Mail :=
  sortDescBy (fun m => m.CreateTime)
    ((st.filter (fun m => matchMail m f? now)).map copyMail)

/-! ## The durable backend (`gorm_mail_store.go`)

The table is a `List MailEntity`; SQL row order stands for primary-key
order.  Backend connectivity failures (`StorageError`) have no
counterpart in the value model, so the corresponding Go error paths are
unreachable here. -/

/-- Transpilation of `GormMailStore.CreateMail` on a non-nil mail:
assign the id if empty (mutating the caller's object), convert, insert
the row.  `newId` stands for the generated `fmt.Sprintf` id. -/
def gormCreateMail (st : List MailEntity) (m : Mail) (newId : String) :
    Mail × List MailEntity × String :=
  let m' := if m.ID = "" then { m with ID := newId } else m
  (m', st ++ [mailToEntity m'], m'.ID)

/-- Transpilation of `GormMailStore.GetMail`: an empty id is rejected
up front (`"mail ID cannot be empty"` — `InvalidArgument`); a missing
row is `NotFound`; otherwise the row is decoded. -/
def gormGetMail (st : List MailEntity) (id : String) : Except StoreErr Mail :=
  if id = "" then Except.error StoreErr.invalidArgument
  else
    match st.find? (fun e => e.ID == id) with
    | some e => entityToMail e
    | none => Except.error StoreErr.notFound

/-- Transpilation of `GormMailStore.DeleteExpiredMails`: one SQL DELETE
with `expire_time != zero AND expire_time < beforeTime`; the count is
`RowsAffected`. -/
def gormDeleteExpiredMails (st : List MailEntity) (t : Nat) :
    Except StoreErr (List MailEntity × Nat) :=
  let kept := st.filter (fun e => !(isExpiredBefore e.ExpireTime t))
  Except.ok (kept, st.length - kept.length)

/-- The entity-decoding loop shared by the durable read paths: convert
every row, aborting on the first conversion error. -/
def decodeAll : List MailEntity → Except StoreErr (List Mail)
  | [] => Except.ok []
  | e :: es => do
    let m ← entityToMail e
    let ms ← decodeAll es
    Except.ok (m :: ms)

/-- The sort/slice tail of the durable query paths: `ORDER BY
create_time DESC`, `OFFSET`, `LIMIT`, then row decoding.  A zero total
short-circuits to an empty page. -/
def gormPaginate (matched : List MailEntity) (page size : Int) :
    Except StoreErr (List Mail × Nat) :=
  let total := matched.length
  if total = 0 then Except.ok ([], 0)
  else
    let offset := ((normPage page - 1) * normSize size).toNat
    let sorted := sortDescBy (fun e => e.CreateTime) matched
    let pageRows := (sorted.drop offset).take (normSize size).toNat
    (decodeAll pageRows).map (fun ms => (ms, total))

/-- Transpilation of `GormMailStore.GetMailsByRecipient`: empty
recipient rejected; count, then paginated select. -/
def gormGetMailsByRecipient (st : List MailEntity) (rid : String) (page size : Int) :
    Except StoreErr (List Mail × Nat) :=
  if rid = "" then Except.error StoreErr.invalidArgument
  else gormPaginate (st.filter (fun e => e.RecipientID == rid)) page size

/-- Transpilation of `GormMailStore.QueryMails`: the accumulated `WHERE`
chain is `gormMatchEntity` (with `now` fixed once when the
`ExpiredOnly` clause is built), then count and paginated select. -/
def gormQueryMails (st : List MailEntity) (f? : Option MailFilter) (page size : Int)
    (now : Nat) : Except StoreErr (List Mail × Nat) :=
  gormPaginate (st.filter (fun e => gormMatchEntity e f? now)) page size

/-- Transpilation of `GormMailStore.CountUnreadMails`. -/
def gormCountUnreadMails (st : List MailEntity) (rid : String) : Except StoreErr Nat :=
  if rid = "" then Except.error StoreErr.invalidArgument
  else Except.ok (st.filter (fun e => e.RecipientID == rid && e.ReadStatus == false)).length

/-- Transpilation of `GormMailStore.CountMailsWithAttachments`: the SQL
condition `attachments != '' AND attachments != '[]' AND attachments !=
'{}'` (brace literals written via escapes). -/
def gormCountMailsWithAttachments (st : List MailEntity) (rid : String) :
    Except StoreErr Nat :=
  if rid = "" then Except.error StoreErr.invalidArgument
  else Except.ok (st.filter (fun e =>
    e.RecipientID == rid && e.Attachments != "" && e.Attachments != "[]" &&
      e.Attachments != "\x7b\x7d")).length

/-- Transpilation of `GormMailStore.ExportMailLogs` up to the final
`json.MarshalIndent`: it reuses `QueryMails` with `page = 1` and the
fixed limit `size = 10000`. -/
def gormExportMails (st : List MailEntity) (f? : Option MailFilter) (now : Nat) :
    Except StoreErr (List Mail) :=
  (gormQueryMails st f? 1 10000 now).map (fun r => r.1)

/-! ## The mail manager (`mail_manager.go`), instantiated with the
in-memory backend -/

/-- Transpilation of `DefaultMailManager.MarkAsRead` over the in-memory
store: reject an empty id, fetch, return unchanged if already read,
else update with `ReadStatus = true`. -/
def markAsRead (st : List Mail) (id : String) : Except StoreErr (List Mail) :=
  if id = "" then Except.error StoreErr.invalidArgument
  else
    match memGetMail st id with
    | Except.error e => Except.error e
    | Except.ok mail =>
      if mail.ReadStatus then Except.ok st
      else memUpdateMail st { mail with ReadStatus := true }

end Inboxer

namespace Inboxer

/-! ## Basic lemmas about the copy helper and the store map -/

/-- A deep copy of a value is the value. -/
theorem copyMail_eq (m : Mail) : copyMail m = m := by
  cases m with
  | mk id s r t c atts rs ct et tags =>
    cases atts <;> cases tags <;> rfl

/-- Copying every element of a list changes nothing. -/
theorem map_copyMail (l : List Mail) : l.map copyMail = l := by
  rw [show copyMail = id from funext copyMail_eq, List.map_id]

/-- Replacing every entry keyed `m.ID` by `m` makes `m` the first entry
found under that key, provided some entry carries it. -/
theorem find?_replace (xs : List Mail) (m : Mail) :
    List.find? (fun x => x.ID == m.ID)
      (xs.map (fun x => if x.ID == m.ID then m else x)) =
      (if xs.any (fun x => x.ID == m.ID) then some m else none) := by
  induction xs with
  | nil => rfl
  | cons x xs ih =>
    by_cases hx : (x.ID == m.ID) = true
    · simp [List.find?, hx]
    · simp only [List.map_cons, hx, if_false, List.find?, Bool.false_eq_true,
        List.any_cons, Bool.false_or]
      exact ih

/-- Reading back the key just written returns the written value. -/
theorem findMail_putMail (st : List Mail) (m : Mail) :
    findMail (putMail st m) m.ID = some m := by
  unfold findMail putMail
  by_cases h : st.any (fun x => x.ID == m.ID)
  · rw [if_pos h, find?_replace, if_pos h]
  · rw [if_neg h, List.find?_append]
    have hnone : st.find? (fun x => x.ID == m.ID) = none := by
      rw [List.find?_eq_none]
      intro x hxmem hxid
      exact h (List.any_eq_true.mpr ⟨x, hxmem, hxid⟩)
    rw [hnone]
    simp [List.find?]

end Inboxer

namespace Inboxer

/-! ## Lemmas about the newest-first sort -/

/-- Inserting adds exactly one element. -/
theorem length_insertDescBy (key : α → Nat) (a : α) (l : List α) :
    (insertDescBy key a l).length = l.length + 1 := by
  induction l with
  | nil => rfl
  | cons b bs ih =>
    unfold insertDescBy
    by_cases h : key b < key a
    · rw [if_pos h]; rfl
    · rw [if_neg h]; simp [ih]

/-- Sorting preserves length. -/
theorem length_sortDescBy (key : α → Nat) (l : List α) :
    (sortDescBy key l).length = l.length := by
  induction l with
  | nil => rfl
  | cons a as ih =>
    unfold sortDescBy
    rw [length_insertDescBy, ih]
    rfl

/-- Inserting produces a permutation of the cons. -/
theorem perm_insertDescBy (key : α → Nat) (a : α) (l : List α) :
    List.Perm (insertDescBy key a l) (a :: l) := by
  induction l with
  | nil => exact List.Perm.refl _
  | cons b bs ih =>
    unfold insertDescBy
    by_cases h : key b < key a
    · rw [if_pos h]
    · rw [if_neg h]
      exact (List.Perm.cons b ih).trans (List.Perm.swap a b bs)

/-- Sorting permutes the input. -/
theorem perm_sortDescBy (key : α → Nat) (l : List α) :
    List.Perm (sortDescBy key l) l := by
  induction l with
  | nil => exact List.Perm.refl _
  | cons a as ih =>
    unfold sortDescBy
    exact (perm_insertDescBy key a (sortDescBy key as)).trans (List.Perm.cons a ih)

/-- Inserting into a descending list keeps it descending. -/
theorem sorted_insertDescBy (key : α → Nat) (a : α) (l : List α)
    (h : List.Sorted (fun x y => key y ≤ key x) l) :
    List.Sorted (fun x y => key y ≤ key x) (insertDescBy key a l) := by
  induction l with
  | nil => simp [insertDescBy]
  | cons b bs ih =>
    unfold insertDescBy
    rw [List.sorted_cons] at h
    by_cases hb : key b < key a
    · rw [if_pos hb]
      refine List.sorted_cons.mpr ⟨?_, List.sorted_cons.mpr h⟩
      intro x hx
      rcases List.mem_cons.mp hx with hx | hx
      · exact Nat.le_of_lt (hx ▸ hb)
      · exact Nat.le_trans (h.1 x hx) (Nat.le_of_lt hb)
    · rw [if_neg hb]
      refine List.sorted_cons.mpr ⟨?_, ih h.2⟩
      intro x hx
      rcases List.mem_cons.mp ((perm_insertDescBy key a bs).mem_iff.mp hx) with hx | hx
      · exact hx ▸ Nat.le_of_not_lt hb
      · exact h.1 x hx

/-- The sort really sorts: its output is descending in the key. -/
theorem sorted_sortDescBy (key : α → Nat) (l : List α) :
    List.Sorted (fun x y => key y ≤ key x) (sortDescBy key l) := by
  induction l with
  | nil => simp [sortDescBy]
  | cons a as ih => exact sorted_insertDescBy key a _ ih

end Inboxer

namespace Inboxer

/-! ## Claim C7: the shared match predicate -/

/-- The matching contract as the spec states it (§4.2 / claim C7): every
populated filter field must be satisfied, all conjoined — exact equality
for sender and recipient, boolean equality for read status, inclusive
`CreateTime` bounds, `expiredOnly` demanding a non-zero `ExpireTime`
strictly before the per-call `now`, and a non-empty tag list demanding
at least one filter tag verbatim among the mail's tags.  A nil filter or
an absent/zero field is no constraint. -/
def matchSpec (m : Mail) (f? : Option MailFilter) (now : Nat) : Prop :=
  match f? with
  | none => True
  | some f =>
    (f.SenderID ≠ "" → m.SenderID = f.SenderID) ∧
    (f.RecipientID ≠ "" → m.RecipientID = f.RecipientID) ∧
    (∀ b, f.ReadStatus = some b → m.ReadStatus = b) ∧
    (∀ t, f.StartTime = some t → t ≤ m.CreateTime) ∧
    (∀ t, f.EndTime = some t → m.CreateTime ≤ t) ∧
    (f.ExpiredOnly = true → m.ExpireTime ≠ 0 ∧ m.ExpireTime < now) ∧
    (f.Tags ≠ [] → ∃ ft ∈ f.Tags, ft ∈ tagsOf m)

/-- Claim C7 — confirmed.  For every mail, filter and per-call time, the
code's `matchMail` accepts exactly when the spec's conjunctive predicate
holds: populated fields combine with AND (exact sender/recipient
equality, read-status equality, inclusive time bounds, expired-only as
non-zero expiry strictly before the single per-call `now`), a non-empty
tag list is an existential verbatim check, and a nil filter or absent
field constrains nothing. -/
theorem if_false_chain (c b : Bool) : (if c = true then false else b) = (!c && b) := by
  cases c <;> simp

theorem matchMail_iff_matchSpec (m : Mail) (f? : Option MailFilter) (now : Nat) :
    matchMail m f? now = true ↔ matchSpec m f? now := by
  cases f? with
  | none => simp [matchMail, matchSpec]
  | some f =>
    rcases f with ⟨fs, fr, frs, fst, fet, feo, ftags⟩
    simp only [matchMail]
    simp only [if_false_chain, Bool.and_true]
    simp only [matchSpec]
    simp only [Bool.and_eq_true, Bool.not_eq_true']
    refine and_congr ?_ (and_congr ?_ (and_congr ?_ (and_congr ?_ (and_congr ?_
      (and_congr ?_ ?_)))))
    · simp only [Bool.and_eq_false_iff, bne_eq_false_iff_eq]
      tauto
    · simp only [Bool.and_eq_false_iff, bne_eq_false_iff_eq]
      tauto
    · cases frs <;> simp [bne_eq_false_iff_eq]
    · cases fst <;> simp [Nat.not_lt]
    · cases fet <;> simp [Nat.not_lt]
    · cases feo <;> simp [Nat.not_lt, Nat.pos_iff_ne_zero]
    · simp only [Bool.and_eq_false_iff, decide_eq_false_iff_not, Nat.not_lt,
        Bool.not_eq_false', List.any_eq_true, beq_iff_eq, Nat.le_zero, List.length_eq_zero,
        tagsOf]
      constructor
      · intro h hne
        rcases h with h | ⟨x, hx, y, hy, hxy⟩
        · exact absurd h hne
        · exact ⟨x, hx, hxy ▸ hy⟩
      · intro h
        by_cases hnil : ftags = []
        · exact Or.inl hnil
        · rcases h hnil with ⟨x, hx, hy⟩
          exact Or.inr ⟨x, hx, x, hy, rfl⟩

end Inboxer

namespace Inboxer

/-! ## Round-trip lemmas for the JSON model -/

/-- Rebuilding a string from its character data is the identity. -/
theorem mkData (s : String) : String.mk s.data = s := by
  cases s
  rfl

/-- A `takeWhile`/`dropWhile` span over satisfied characters followed by
a failing one splits the list there. -/
theorem takeWhile_append_stop (p : Char → Bool) (l : List Char) (c : Char) (r : List Char)
    (hl : ∀ x ∈ l, p x = true) (hc : p c = false) :
    (l ++ c :: r).takeWhile p = l ∧ (l ++ c :: r).dropWhile p = c :: r := by
  induction l with
  | nil => simp [List.takeWhile_cons, List.dropWhile_cons, hc]
  | cons x xs ih =>
    have hx : p x = true := hl x (List.mem_cons_self x xs)
    have hrec := ih (fun y hy => hl y (List.mem_cons_of_mem x hy))
    simp [List.takeWhile_cons, List.dropWhile_cons, hx, hrec.1, hrec.2]

/-- A plain string contains no quote character. -/
theorem plain_no_quote {s : String} (h : jsonPlainStr s = true) :
    ∀ c ∈ s.data, (c != '"') = true := by
  intro c hc
  have hc2 := List.all_eq_true.mp h c hc
  simp only [jsonPlainChar, Bool.and_eq_true] at hc2
  exact hc2.1.1.1.1.1

/-- The string-literal parser inverts the string-literal printer on
plain strings, leaving the rest of the input untouched. -/
theorem parseJStr_encode (s : String) (r : List Char) (h : jsonPlainStr s = true) :
    parseJStr (jstrChars s ++ r) = some (s, r) := by
  have hspan := takeWhile_append_stop (fun c => c != '"') s.data '"' r
    (plain_no_quote h) (by simp)
  have hshape : jstrChars s ++ r = '"' :: (s.data ++ '"' :: r) := by
    simp [jstrChars]
  rw [hshape]
  simp only [parseJStr]
  rw [hspan.2]
  simp [hspan.1, mkData]

/-- Each tag costs at least one character in the array body. -/
theorem length_le_tagsBody (ts : List String) : ts.length ≤ (tagsBody ts).length := by
  induction ts with
  | nil => simp [tagsBody]
  | cons t ts2 ih =>
    cases ts2 with
    | nil => simp [tagsBody, jstrChars]
    | cons t2 ts3 =>
      have hstep : tagsBody (t :: t2 :: ts3) = jstrChars t ++ ',' :: tagsBody (t2 :: ts3) := rfl
      rw [hstep]
      simp only [List.length_cons, List.length_append, jstrChars] at ih ⊢
      omega

/-- The array-element parser inverts the array-body printer on plain
tags. -/
theorem parseJStrs_body (ts : List String) (r : List Char) :
    ∀ fuel, ts ≠ [] → (∀ t ∈ ts, jsonPlainStr t = true) → ts.length ≤ fuel →
      parseJStrs fuel (tagsBody ts ++ ']' :: r) = some (ts, r) := by
  induction ts with
  | nil => intro fuel hne _ _; exact absurd rfl hne
  | cons t ts2 ih =>
    intro fuel _ hplain hlen
    cases fuel with
    | zero => simp at hlen
    | succ fuel =>
      have hpt : jsonPlainStr t = true := hplain t (List.mem_cons_self t ts2)
      cases ts2 with
      | nil =>
        have hstep : tagsBody [t] ++ ']' :: r = jstrChars t ++ ']' :: r := rfl
        rw [hstep]
        simp only [parseJStrs]
        simp [parseJStr_encode t (']' :: r) hpt]
      | cons t2 ts3 =>
        have hshape : tagsBody (t :: t2 :: ts3) ++ ']' :: r =
            jstrChars t ++ ',' :: (tagsBody (t2 :: ts3) ++ ']' :: r) := by
          simp [tagsBody]
        rw [hshape]
        simp only [parseJStrs]
        have hrec := ih fuel (by simp)
          (fun x hx => hplain x (List.mem_cons_of_mem t hx))
          (by simp only [List.length_cons] at hlen ⊢; omega)
        simp [parseJStr_encode t _ hpt, hrec]

/-- The tag decoder inverts the tag encoder on plain tags. -/
theorem jsonUnmarshalTags_tagsJson (ts : List String)
    (h : ∀ t ∈ ts, jsonPlainStr t = true) :
    jsonUnmarshalTags (tagsJson ts) = some ts := by
  cases ts with
  | nil => rfl
  | cons t ts2 =>
    obtain ⟨tl, htl⟩ : ∃ tl, tagsBody (t :: ts2) = '"' :: tl := by
      cases ts2 <;> exact ⟨_, rfl⟩
    have hdata : (tagsJson (t :: ts2)).data = '[' :: '"' :: (tl ++ [']']) := by
      simp [tagsJson, htl]
    have hbody : ('"' :: (tl ++ [']'])) = tagsBody (t :: ts2) ++ ']' :: ([] : List Char) := by
      simp [htl]
    have hlenbody := length_le_tagsBody (t :: ts2)
    rw [htl] at hlenbody
    have hfuel : (t :: ts2).length ≤ ('"' :: (tl ++ [']'])).length + 1 := by
      simp only [List.length_cons, List.length_append] at hlenbody ⊢
      omega
    have hcall := parseJStrs_body (t :: ts2) []
      (('"' :: (tl ++ [']'])).length + 1) (by simp) h hfuel
    rw [← hbody] at hcall
    simp only [List.length_cons, List.length_append, List.length_nil, Nat.zero_add] at hcall
    unfold jsonUnmarshalTags
    rw [hdata]
    simp [hcall]

end Inboxer

namespace Inboxer

/-- Well-formedness of an attachment value for the JSON model: strings
plain, numeric literal tokens proper. -/
def attValWF : AttValue → Bool
  | .anum lit => numLitWF lit
  | .astr s => jsonPlainStr s
  | .abool _ => true
  | .anull => true

/-- Well-formedness of an attachment entry: plain key, well-formed
value. -/
def attPairWF (kv : String × AttValue) : Bool := jsonPlainStr kv.1 && attValWF kv.2

/-- The value parser inverts the value printer, provided the next input
character cannot extend a number token. -/
theorem parseAttVal_encode (v : AttValue) (c0 : Char) (r : List Char)
    (hv : attValWF v = true) (hc0 : jsonNumChar c0 = false) :
    parseAttVal (attValChars v ++ c0 :: r) = some (v, c0 :: r) := by
  cases v with
  | astr s =>
    have hp : parseJStr ('"' :: (s.data ++ '"' :: (c0 :: r))) = some (s, c0 :: r) := by
      rw [show ('"' :: (s.data ++ '"' :: (c0 :: r))) = jstrChars s ++ c0 :: r by
        simp [jstrChars]]
      exact parseJStr_encode s (c0 :: r) hv
    show parseAttVal (jstrChars s ++ c0 :: r) = some (.astr s, c0 :: r)
    rw [show jstrChars s ++ c0 :: r = '"' :: (s.data ++ '"' :: (c0 :: r)) by
      simp [jstrChars]]
    simp [parseAttVal, hp]
  | abool b => cases b <;> rfl
  | anull => rfl
  | anum lit =>
    simp only [attValWF, numLitWF, Bool.and_eq_true, decide_eq_true_eq,
      List.all_eq_true] at hv
    obtain ⟨hne, hall⟩ := hv
    have hspan := takeWhile_append_stop jsonNumChar lit.data c0 r hall hc0
    cases hd : lit.data with
    | nil => exact absurd hd hne
    | cons d ds =>
      have hdnum : jsonNumChar d = true := hall d (by rw [hd]; exact List.mem_cons_self d ds)
      have hq : d ≠ '"' := by
        intro he; rw [he] at hdnum; exact absurd hdnum (by decide)
      have ht : d ≠ 't' := by
        intro he; rw [he] at hdnum; exact absurd hdnum (by decide)
      have hf : d ≠ 'f' := by
        intro he; rw [he] at hdnum; exact absurd hdnum (by decide)
      have hn : d ≠ 'n' := by
        intro he; rw [he] at hdnum; exact absurd hdnum (by decide)
      rw [hd] at hspan
      show parseAttVal (lit.data ++ c0 :: r) = some (.anum lit, c0 :: r)
      rw [hd]
      simp only [List.cons_append] at hspan ⊢
      simp only [parseAttVal]
      rw [if_neg hq]
      rw [show dropLit ['t', 'r', 'u', 'e'] (d :: (ds ++ c0 :: r)) = none by
        simp [dropLit, ht]]
      rw [show dropLit ['f', 'a', 'l', 's', 'e'] (d :: (ds ++ c0 :: r)) = none by
        simp [dropLit, hf]]
      rw [show dropLit ['n', 'u', 'l', 'l'] (d :: (ds ++ c0 :: r)) = none by
        simp [dropLit, hn]]
      simp only [hspan.1, hspan.2]
      rw [show String.mk (d :: ds) = lit by rw [← hd, mkData]]

end Inboxer

namespace Inboxer

/-- Each attachment entry costs at least one character in the object
body. -/
theorem length_le_attsBody (kvs : List (String × AttValue)) :
    kvs.length ≤ (attsBody kvs).length := by
  induction kvs with
  | nil => simp [attsBody]
  | cons kv kvs2 ih =>
    cases kvs2 with
    | nil => simp [attsBody, jstrChars]
    | cons kv2 kvs3 =>
      have hstep : attsBody (kv :: kv2 :: kvs3) =
          jstrChars kv.1 ++ ':' :: attValChars kv.2 ++ ',' :: attsBody (kv2 :: kvs3) := rfl
      rw [hstep]
      simp only [List.length_cons, List.length_append, jstrChars] at ih ⊢
      omega

/-- The pair parser inverts the object-body printer on well-formed
entries. -/
theorem parseAttPairs_body (kvs : List (String × AttValue)) (r : List Char) :
    ∀ fuel, kvs ≠ [] → (∀ kv ∈ kvs, attPairWF kv = true) → kvs.length ≤ fuel →
      parseAttPairs fuel (attsBody kvs ++ rbrace :: r) = some (kvs, r) := by
  induction kvs with
  | nil => intro fuel hne _ _; exact absurd rfl hne
  | cons kv kvs2 ih =>
    intro fuel _ hwf hlen
    cases fuel with
    | zero => simp at hlen
    | succ fuel =>
      have hkv := hwf kv (List.mem_cons_self kv kvs2)
      simp only [attPairWF, Bool.and_eq_true] at hkv
      cases kvs2 with
      | nil =>
        have hstep : attsBody [kv] ++ rbrace :: r =
            jstrChars kv.1 ++ ':' :: (attValChars kv.2 ++ rbrace :: r) := by
          simp [attsBody]
        rw [hstep]
        simp only [parseAttPairs]
        rw [parseJStr_encode kv.1 _ hkv.1]
        simp only [if_pos rfl]
        rw [parseAttVal_encode kv.2 rbrace r hkv.2 (by decide)]
        simp [rbrace, lbrace]
      | cons kv2 kvs3 =>
        have hstep : attsBody (kv :: kv2 :: kvs3) ++ rbrace :: r =
            jstrChars kv.1 ++ ':' :: (attValChars kv.2 ++
              ',' :: (attsBody (kv2 :: kvs3) ++ rbrace :: r)) := by
          simp [attsBody]
        rw [hstep]
        simp only [parseAttPairs]
        rw [parseJStr_encode kv.1 _ hkv.1]
        simp only [if_pos rfl]
        rw [parseAttVal_encode kv.2 ',' _ hkv.2 (by decide)]
        have hrec := ih fuel (by simp)
          (fun x hx => hwf x (List.mem_cons_of_mem kv hx))
          (by simp only [List.length_cons] at hlen ⊢; omega)
        simp [hrec]

end Inboxer

namespace Inboxer

/-- The attachment decoder inverts the attachment encoder on
well-formed entries. -/
theorem jsonUnmarshalAtts_attsJson (kvs : List (String × AttValue))
    (h : ∀ kv ∈ kvs, attPairWF kv = true) :
    jsonUnmarshalAtts (attsJson kvs) = some kvs := by
  cases kvs with
  | nil => rfl
  | cons kv kvs2 =>
    obtain ⟨tl, htl⟩ : ∃ tl, attsBody (kv :: kvs2) = '"' :: tl := by
      cases kvs2 <;> exact ⟨_, rfl⟩
    obtain ⟨y, ys, hys⟩ : ∃ y ys, tl ++ [rbrace] = y :: ys := by
      cases tl <;> exact ⟨_, _, rfl⟩
    have hdata : (attsJson (kv :: kvs2)).data = lbrace :: '"' :: (tl ++ [rbrace]) := by
      simp [attsJson, htl]
    have hbody : ('"' :: (tl ++ [rbrace])) = attsBody (kv :: kvs2) ++ rbrace :: ([] : List Char) := by
      simp [htl]
    have hlenbody := length_le_attsBody (kv :: kvs2)
    rw [htl] at hlenbody
    have hfuel : (kv :: kvs2).length ≤ ('"' :: (tl ++ [rbrace])).length + 1 := by
      simp only [List.length_cons, List.length_append] at hlenbody ⊢
      omega
    have hcall := parseAttPairs_body (kv :: kvs2) []
      (('"' :: (tl ++ [rbrace])).length + 1) (by simp) h hfuel
    rw [← hbody] at hcall
    simp only [List.length_cons, List.length_append, List.length_nil, Nat.zero_add] at hcall
    unfold jsonUnmarshalAtts
    rw [hdata]
    rw [show (lbrace :: '"' :: (tl ++ [rbrace])) = lbrace :: '"' :: y :: ys by rw [hys]]
    rw [hys] at hcall
    have hleq : tl.length = ys.length := by
      have := congrArg List.length hys
      simp only [List.length_append, List.length_cons, List.length_nil] at this
      omega
    rw [hleq] at hcall
    simp [hcall]

end Inboxer

namespace Inboxer

/-- The serialized tags column is never the empty string. -/
theorem tagsJson_ne_empty (ts : List String) : (tagsJson ts != "") = true := by
  rw [bne_iff_ne]
  intro he
  have hd := congrArg String.data he
  simp [tagsJson] at hd

/-- The serialized attachments column is never the empty string. -/
theorem attsJson_ne_empty (atts : List (String × AttValue)) :
    (attsJson atts != "") = true := by
  rw [bne_iff_ne]
  intro he
  have hd := congrArg String.data he
  simp [attsJson] at hd

/-- Well-formedness of a mail's serializable payload: tags plain,
attachment keys plain and values well-formed (`json.Marshal` output for
anything else contains escape sequences, which the decoding model does
not cover). -/
def mailJsonWF (m : Mail) : Bool :=
  (match m.Tags with
   | some ts => ts.all jsonPlainStr
   | none => true) &&
  (match m.Attachments with
   | some atts => atts.all attPairWF
   | none => true)

/-- The column text written for a nil attachment bag decodes to the
empty bag. -/
theorem unmarshalAtts_emptyObj : jsonUnmarshalAtts "\x7b\x7d" = some [] := by rfl

/-- The column text written for a nil tag list decodes to the empty
list. -/
theorem unmarshalTags_emptyArr : jsonUnmarshalTags "[]" = some [] := by rfl

/-- Durable row round-trip: converting a mail to its row and back
restores every field except that a nil tag list returns as an empty one
and a nil attachment bag as an empty one (`entityToMail` decodes the
`"[]"`/`"{}"` column text written for nil input into non-nil empty
collections). -/
theorem entityToMail_mailToEntity (m : Mail) (h : mailJsonWF m = true) :
    entityToMail (mailToEntity m) =
      Except.ok { m with Tags := some (tagsOf m), Attachments := some (attsOf m) } := by
  obtain ⟨id, sid, rid, ti, co, A, rs, ct, et, T⟩ := m
  simp only [mailJsonWF, Bool.and_eq_true] at h
  obtain ⟨hT, hA⟩ := h
  cases A with
  | none =>
    cases T with
    | none => rfl
    | some ts =>
      simp only at hT
      simp only [mailToEntity, entityToMail]
      rw [if_pos (tagsJson_ne_empty ts)]
      rw [jsonUnmarshalTags_tagsJson ts (List.all_eq_true.mp hT)]
      rw [show jsonUnmarshalAtts "\x7b\x7d" = some [] from rfl]
      rfl
  | some atts =>
    have hA2 : ∀ kv ∈ atts, attPairWF kv = true := List.all_eq_true.mp hA
    cases T with
    | none =>
      simp only [mailToEntity, entityToMail]
      rw [if_pos (attsJson_ne_empty atts)]
      rw [jsonUnmarshalAtts_attsJson atts hA2]
      rfl
    | some ts =>
      simp only at hT
      simp only [mailToEntity, entityToMail]
      rw [if_pos (attsJson_ne_empty atts)]
      rw [jsonUnmarshalAtts_attsJson atts hA2]
      rw [if_pos (tagsJson_ne_empty ts)]
      rw [jsonUnmarshalTags_tagsJson ts (List.all_eq_true.mp hT)]
      rfl

end Inboxer

namespace Inboxer

/-! ## Claim C3: create-then-get round-trip -/

/-- A concrete mail with a nil tag list and nil attachment bag. -/
def c3mail : Mail :=
  { ID := "m3", SenderID := "alice", RecipientID := "bob", Title := "hi",
    Content := "body", Attachments := none, ReadStatus := false,
    CreateTime := 5, ExpireTime := 0, Tags := none }

/-- Claim C3 as stated is false on the durable backend: creating
`c3mail` (nil tags, nil attachments) and fetching it back yields a mail
whose `Tags` is the empty list, not nil — the tags are not returned
exactly as stored. -/
theorem c3_counterexample :
    gormGetMail (gormCreateMail [] c3mail "unused").2.1
        (gormCreateMail [] c3mail "unused").2.2 =
      Except.ok { c3mail with Tags := some [], Attachments := some [] } ∧
    (some ([] : List String)) ≠ c3mail.Tags := by
  constructor
  · rfl
  · intro h
    simp [c3mail] at h

/-- Claim C3, amended.  In-memory backend: `CreateMail` then `GetMail`
on the returned id yields the caller's mail exactly — every field equal
except `ID` when one was assigned, a nil tag list staying nil and a nil
attachment bag staying nil.  Durable backend: the same holds for every
field except that a nil (or non-nil) tag list comes back as `some` of
its elements and likewise the attachment bag — nil collections come
back empty, all keys and values preserved — provided the payload is
JSON-plain, the effective id is non-empty and fresh. -/
theorem c3_create_get_roundtrip
    (st : List Mail) (est : List MailEntity) (m : Mail) (newId : String) :
    (memGetMail (memCreateMail st m newId).2.1 (memCreateMail st m newId).2.2 =
        Except.ok (memCreateMail st m newId).1 ∧
      (memCreateMail st m newId).1 = { m with ID := (memCreateMail st m newId).2.2 }) ∧
    (mailJsonWF m = true →
      (gormCreateMail est m newId).2.2 ≠ "" →
      (∀ e ∈ est, e.ID ≠ (gormCreateMail est m newId).2.2) →
      gormGetMail (gormCreateMail est m newId).2.1 (gormCreateMail est m newId).2.2 =
        Except.ok { (gormCreateMail est m newId).1 with
          Tags := some (tagsOf (gormCreateMail est m newId).1),
          Attachments := some (attsOf (gormCreateMail est m newId).1) }) := by
  obtain ⟨m2, hm2⟩ : ∃ m2, (if m.ID = "" then { m with ID := newId } else m) = m2 :=
    ⟨_, rfl⟩
  have hmc : memCreateMail st m newId = (m2, putMail st (copyMail m2), m2.ID) := by
    simp [memCreateMail, hm2]
  have hgc : gormCreateMail est m newId = (m2, est ++ [mailToEntity m2], m2.ID) := by
    simp [gormCreateMail, hm2]
  constructor
  · rw [hmc]
    constructor
    · show memGetMail (putMail st (copyMail m2)) m2.ID = Except.ok m2
      unfold memGetMail
      rw [show m2.ID = (copyMail m2).ID by rw [copyMail_eq]]
      rw [findMail_putMail st (copyMail m2)]
      simp [copyMail_eq]
    · rw [← hm2]
      by_cases h : m.ID = ""
      · simp [h]
      · simp [h]
  · intro hwf hne hfresh
    rw [hgc] at hne hfresh ⊢
    show gormGetMail (est ++ [mailToEntity m2]) m2.ID = _
    unfold gormGetMail
    rw [if_neg hne]
    have hfind : List.find? (fun e => e.ID == m2.ID) (est ++ [mailToEntity m2]) =
        some (mailToEntity m2) := by
      rw [List.find?_append]
      have h1 : List.find? (fun e => e.ID == m2.ID) est = none := by
        rw [List.find?_eq_none]
        intro e he
        simp only [beq_iff_eq]
        exact hfresh e he
      rw [h1]
      have h2 : (mailToEntity m2).ID = m2.ID := rfl
      simp [List.find?, h2]
    rw [hfind]
    have hwf2 : mailJsonWF m2 = true := by
      rw [← hm2]
      by_cases h : m.ID = ""
      · simpa [mailJsonWF, h] using hwf
      · simpa [mailJsonWF, h] using hwf
    exact entityToMail_mailToEntity m2 hwf2

/-- Concrete instantiation of the round-trip theorem. -/
theorem c3_create_get_roundtrip_witness :
    (mailJsonWF c3mail = true ∧
      (gormCreateMail [] c3mail "fresh1").2.2 ≠ "" ∧
      (∀ e ∈ ([] : List MailEntity), e.ID ≠ (gormCreateMail [] c3mail "fresh1").2.2)) ∧
    (memGetMail (memCreateMail [] c3mail "fresh1").2.1
        (memCreateMail [] c3mail "fresh1").2.2 =
        Except.ok (memCreateMail [] c3mail "fresh1").1 ∧
      gormGetMail (gormCreateMail [] c3mail "fresh1").2.1
          (gormCreateMail [] c3mail "fresh1").2.2 =
        Except.ok { (gormCreateMail [] c3mail "fresh1").1 with
          Tags := some (tagsOf (gormCreateMail [] c3mail "fresh1").1),
          Attachments := some (attsOf (gormCreateMail [] c3mail "fresh1").1) }) := by
  refine ⟨⟨by decide, by decide, by intro e he; simp at he⟩, ?_, ?_⟩
  · exact (c3_create_get_roundtrip [] [] c3mail "fresh1").1.1
  · exact (c3_create_get_roundtrip [] [] c3mail "fresh1").2 (by decide) (by decide)
      (by intro e he; simp at he)

end Inboxer

namespace Inboxer

/-! ## Claim C5: expiry sweep -/

/-- A filter and its complement partition the length. -/
theorem length_filter_not_add (p : α → Bool) (l : List α) :
    (l.filter p).length + (l.filter (fun a => !(p a))).length = l.length := by
  induction l with
  | nil => rfl
  | cons a as ih =>
    by_cases h : p a = true
    · simp [List.filter_cons, h, ← ih]
      omega
    · simp only [Bool.not_eq_true] at h
      simp [List.filter_cons, h, ← ih]
      omega

/-- Distinct ids identify entries: under the store-map invariant two
stored mails with the same id are the same mail. -/
theorem id_inj_of_nodup (st : List Mail) (hnd : (st.map (fun m => m.ID)).Nodup) :
    ∀ x ∈ st, ∀ y ∈ st, x.ID = y.ID → x = y := by
  induction st with
  | nil => intro x hx; simp at hx
  | cons a as ih =>
    rw [List.map_cons, List.nodup_cons] at hnd
    intro x hx y hy hxy
    rcases List.mem_cons.mp hx with hx | hx <;> rcases List.mem_cons.mp hy with hy | hy
    · rw [hx, hy]
    · exfalso
      apply hnd.1
      exact List.mem_map.mpr ⟨y, hy, by rw [← hxy, hx]⟩
    · exfalso
      apply hnd.1
      exact List.mem_map.mpr ⟨x, hx, by rw [hxy, hy]⟩
    · exact ih hnd.2 x hx y hy hxy

/-- Membership of a stored mail's id in the collected to-delete id list
coincides with the mail's own expiry test, under the id invariant. -/
theorem contains_toDelete_iff (st : List Mail) (t : Nat)
    (hnd : (st.map (fun m => m.ID)).Nodup) (m : Mail) (hm : m ∈ st) :
    ((st.filter (fun x => isExpiredBefore x.ExpireTime t)).map (fun x => x.ID)).contains m.ID =
      isExpiredBefore m.ExpireTime t := by
  rw [List.contains_eq_any_beq]
  by_cases h : isExpiredBefore m.ExpireTime t = true
  · rw [h, List.any_eq_true]
    exact ⟨m.ID, List.mem_map.mpr ⟨m, List.mem_filter.mpr ⟨hm, h⟩, rfl⟩, by simp⟩
  · simp only [Bool.not_eq_true] at h
    rw [h, List.any_eq_false]
    intro a ha hbeq
    rw [beq_iff_eq] at hbeq
    rcases List.mem_map.mp ha with ⟨x, hxmem, hxid⟩
    rcases List.mem_filter.mp hxmem with ⟨hxst, hxexp⟩
    have hxm : x = m := id_inj_of_nodup st hnd x hxst m hm (by rw [hxid, ← hbeq])
    rw [hxm, h] at hxexp
    exact Bool.false_ne_true hxexp

/-- Claim C5 — confirmed.  On both backends, `DeleteExpiredMails(t)`
keeps exactly the mails that are not (non-zero-expiry and strictly
earlier than `t`), removing the rest in place and leaving every kept
mail unchanged, returns the number of removed mails, and returns no
error (in particular when zero mails match).  The in-memory statement
assumes the store-map invariant of distinct ids. -/
theorem c5_delete_expired (st : List Mail) (est : List MailEntity) (t : Nat)
    (hnd : (st.map (fun m => m.ID)).Nodup) :
    memDeleteExpiredMails st t =
      Except.ok (st.filter (fun m => !(isExpiredBefore m.ExpireTime t)),
        (st.filter (fun m => isExpiredBefore m.ExpireTime t)).length) ∧
    gormDeleteExpiredMails est t =
      Except.ok (est.filter (fun e => !(isExpiredBefore e.ExpireTime t)),
        (est.filter (fun e => isExpiredBefore e.ExpireTime t)).length) := by
  constructor
  · simp only [memDeleteExpiredMails]
    have h1 : st.filter (fun m =>
        !(((st.filter (fun x => isExpiredBefore x.ExpireTime t)).map
          (fun x => x.ID)).contains m.ID)) =
        st.filter (fun m => !(isExpiredBefore m.ExpireTime t)) := by
      apply List.filter_congr
      intro m hm
      rw [contains_toDelete_iff st t hnd m hm]
    rw [h1]
    have h2 : ((st.filter (fun x => isExpiredBefore x.ExpireTime t)).map
        (fun x => x.ID)).length =
        (st.filter (fun m => isExpiredBefore m.ExpireTime t)).length :=
      List.length_map _ _
    rw [h2]
  · simp only [gormDeleteExpiredMails]
    have h3 := length_filter_not_add (fun e => isExpiredBefore e.ExpireTime t) est
    have h4 : est.length - (est.filter (fun e => !(isExpiredBefore e.ExpireTime t))).length =
        (est.filter (fun e => isExpiredBefore e.ExpireTime t)).length := by
      omega
    rw [h4]

/-- Concrete instantiation of the expiry-sweep theorem: a store holding
one mail expiring at time 3, one never-expiring mail and one expiring
later; the sweep at time 5 removes exactly the first and reports 1. -/
theorem c5_delete_expired_witness :
    (([{ c3mail with ID := "a", ExpireTime := 3 },
       { c3mail with ID := "b", ExpireTime := 0 },
       { c3mail with ID := "c", ExpireTime := 9 }].map (fun m => m.ID)).Nodup) ∧
    memDeleteExpiredMails
        [{ c3mail with ID := "a", ExpireTime := 3 },
         { c3mail with ID := "b", ExpireTime := 0 },
         { c3mail with ID := "c", ExpireTime := 9 }] 5 =
      Except.ok ([{ c3mail with ID := "b", ExpireTime := 0 },
        { c3mail with ID := "c", ExpireTime := 9 }], 1) := by
  constructor
  · decide
  · have h := (c5_delete_expired
      [{ c3mail with ID := "a", ExpireTime := 3 },
       { c3mail with ID := "b", ExpireTime := 0 },
       { c3mail with ID := "c", ExpireTime := 9 }] [] 5 (by decide)).1
    rw [h]
    rfl

end Inboxer

namespace Inboxer

/-! ## Claim C6: pagination -/

/-- The normalized page number is at least 1. -/
theorem normPage_pos (page : Int) : 1 ≤ normPage page := by
  unfold normPage; split <;> omega

/-- The normalized page size is at least 1. -/
theorem normSize_pos (size : Int) : 1 ≤ normSize size := by
  unfold normSize; split <;> omega

/-- The sort/slice tail computes exactly the drop/take slice of the
sorted matches, with the total unaffected by the page arguments. -/
theorem paginateDesc_eq (matched : List Mail) (page size : Int) :
    paginateDesc matched page size =
      (((sortDescBy (fun m => m.CreateTime) matched).drop
          (((normPage page - 1) * normSize size).toNat)).take (normSize size).toNat,
        matched.length) := by
  have hp := normPage_pos page
  have hs := normSize_pos size
  have hlen := length_sortDescBy (fun m => m.CreateTime) matched
  simp only [paginateDesc]
  by_cases hcase :
      ((sortDescBy (fun m => m.CreateTime) matched).length : Int) ≤
        (normPage page - 1) * normSize size
  · rw [if_pos hcase]
    have hnn : (0 : Int) ≤ (normPage page - 1) * normSize size :=
      mul_nonneg (by omega) (by omega)
    have hdrop : (sortDescBy (fun m => m.CreateTime) matched).drop
        (((normPage page - 1) * normSize size).toNat) = [] :=
      List.drop_eq_nil_of_le (by omega)
    rw [hdrop]
    simp [hlen]
  · rw [if_neg hcase]
    push_neg at hcase
    have hnn : (0 : Int) ≤ (normPage page - 1) * normSize size :=
      mul_nonneg (by omega) (by omega)
    unfold goSlice
    refine Prod.ext ?_ (by simpa using hlen)
    show List.take _ _ = List.take _ _
    by_cases h2 : ((sortDescBy (fun m => m.CreateTime) matched).length : Int) <
        (normPage page - 1) * normSize size + normSize size
    · rw [if_pos h2]
      apply List.take_eq_take.mpr
      rw [List.length_drop]
      omega
    · rw [if_neg h2]
      have : ((normPage page - 1) * normSize size + normSize size).toNat -
          ((normPage page - 1) * normSize size).toNat = (normSize size).toNat := by
        omega
      rw [this]

end Inboxer

namespace Inboxer

/-- Claim C6 — confirmed.  `QueryMails` coerces `page` below 1 to 1 and
`size` below 1 to 10; it returns no error; the returned total is the
number of stored mails matching the filter, independent of `page` and
`size`; the returned slice is the newest-first-sorted match set
restricted to the index window `[(page-1)*size, (page-1)*size + size)`
clamped to the total; and an out-of-range offset yields the empty
slice. -/
theorem c6_query_pagination (st : List Mail) (f? : Option MailFilter)
    (page size : Int) (now : Nat) :
    memQueryMails st f? page size now =
      Except.ok
        (((sortDescBy (fun m => m.CreateTime) (st.filter (fun m => matchMail m f? now))).drop
            (((normPage page - 1) * normSize size).toNat)).take (normSize size).toNat,
          (st.filter (fun m => matchMail m f? now)).length) ∧
    (normPage page = if page < 1 then 1 else page) ∧
    (normSize size = if size < 1 then 10 else size) ∧
    ((st.filter (fun m => matchMail m f? now)).length ≤
        ((normPage page - 1) * normSize size).toNat →
      ((sortDescBy (fun m => m.CreateTime) (st.filter (fun m => matchMail m f? now))).drop
          (((normPage page - 1) * normSize size).toNat)).take (normSize size).toNat = []) := by
  refine ⟨?_, ?_, ?_, ?_⟩
  · simp only [memQueryMails]
    rw [map_copyMail, paginateDesc_eq]
  · unfold normPage
    split_ifs <;> omega
  · unfold normSize
    split_ifs <;> omega
  · intro h
    have hdrop : (sortDescBy (fun m => m.CreateTime)
        (st.filter (fun m => matchMail m f? now))).drop
        (((normPage page - 1) * normSize size).toNat) = [] :=
      List.drop_eq_nil_of_le (by rw [length_sortDescBy]; exact h)
    rw [hdrop]
    exact List.take_nil

/-- A concrete store for the pagination instantiation. -/
def c6store : List Mail :=
  [{ c3mail with ID := "x1", CreateTime := 1 },
   { c3mail with ID := "x2", CreateTime := 2 },
   { c3mail with ID := "x3", CreateTime := 3 }]

/-- Concrete instantiation of the pagination theorem: page 5 of size 10
is out of range for three stored mails, so the query returns an empty
slice, no error, and the untruncated total 3. -/
theorem c6_query_pagination_witness :
    memQueryMails c6store none 5 10 0 = Except.ok ([], 3) := by
  have h := (c6_query_pagination c6store none 5 10 0).1
  have h2 := (c6_query_pagination c6store none 5 10 0).2.2.2 (by decide)
  rw [h, h2]
  rfl

end Inboxer

namespace Inboxer

/-! ## Claim C8: marking as read is idempotent -/

/-- Claim C8 — confirmed.  For a stored mail that is already read,
`MarkAsRead` on its id succeeds and returns the store unchanged; and
whenever `MarkAsRead` succeeds, running it again on the same id
succeeds and changes nothing further (second application is the
identity on the resulting state). -/
theorem c8_mark_as_read_idempotent :
    (∀ (st : List Mail) (id : String) (m : Mail), id ≠ "" →
      findMail st id = some m → m.ReadStatus = true →
      markAsRead st id = Except.ok st) ∧
    (∀ (st st2 : List Mail) (id : String),
      markAsRead st id = Except.ok st2 → markAsRead st2 id = Except.ok st2) := by
  constructor
  · intro st id m hid hfind hread
    rw [markAsRead, if_neg hid]
    simp only [memGetMail, hfind, copyMail_eq]
    simp [hread]
  · intro st st2 id h
    by_cases hid : id = ""
    · rw [markAsRead, if_pos hid] at h
      simp at h
    · rw [markAsRead, if_neg hid] at h
      cases hfind : findMail st id with
      | none =>
        simp only [memGetMail, hfind] at h
        simp at h
      | some m =>
        have hmid : m.ID = id := by
          have h2 := List.find?_some hfind
          exact beq_iff_eq.mp h2
        have hmem : m ∈ st := List.mem_of_find?_eq_some hfind
        subst hmid
        simp only [memGetMail, hfind, copyMail_eq] at h
        by_cases hread : m.ReadStatus = true
        · rw [if_pos hread] at h
          have hst : st = st2 := by
            simpa using h
          subst hst
          rw [markAsRead, if_neg hid]
          simp only [memGetMail, hfind, copyMail_eq]
          simp [hread]
        · have hread2 : m.ReadStatus = false := by
            revert hread; cases m.ReadStatus <;> simp
          rw [hread2] at h
          simp only [Bool.false_eq_true, if_false] at h
          simp only [memUpdateMail, copyMail_eq] at h
          rw [if_neg hid] at h
          have hany : st.any (fun x => x.ID == ({ m with ReadStatus := true } : Mail).ID)
              = true :=
            List.any_eq_true.mpr ⟨m, hmem, by simp⟩
          rw [if_pos hany] at h
          have hst2 : st.map (fun x =>
              if x.ID == ({ m with ReadStatus := true } : Mail).ID then
                { m with ReadStatus := true } else x) = st2 := by
            simpa using h
          subst hst2
          rw [markAsRead, if_neg hid]
          have hrepl := find?_replace st { m with ReadStatus := true }
          rw [if_pos hany] at hrepl
          simp only [memGetMail]
          rw [show findMail (st.map (fun x =>
              if x.ID == ({ m with ReadStatus := true } : Mail).ID then
                { m with ReadStatus := true } else x)) m.ID =
              some { m with ReadStatus := true } from hrepl]
          simp [copyMail_eq]

/-- Concrete instantiation of the idempotence theorem: the singleton
store holding an already-read mail is returned unchanged, twice. -/
theorem c8_mark_as_read_witness :
    (("r1" : String) ≠ "" ∧
      findMail [{ c3mail with ID := "r1", ReadStatus := true }] "r1" =
        some { c3mail with ID := "r1", ReadStatus := true }) ∧
    markAsRead [{ c3mail with ID := "r1", ReadStatus := true }] "r1" =
      Except.ok [{ c3mail with ID := "r1", ReadStatus := true }] ∧
    markAsRead [{ c3mail with ID := "r1", ReadStatus := true }] "r1" =
      Except.ok [{ c3mail with ID := "r1", ReadStatus := true }] := by
  refine ⟨⟨by decide, by decide⟩, ?_, ?_⟩
  · exact c8_mark_as_read_idempotent.1 _ "r1"
      { c3mail with ID := "r1", ReadStatus := true } (by decide) (by decide) (by decide)
  · exact c8_mark_as_read_idempotent.2 _ _ "r1"
      (c8_mark_as_read_idempotent.1 _ "r1"
        { c3mail with ID := "r1", ReadStatus := true } (by decide) (by decide) (by decide))

end Inboxer

namespace Inboxer

/-! ## Claim C2: empty-argument validation -/

/-- Claim C2 as stated is false for the in-memory backend: `GetMail`
with an empty id fails with `NotFound` (not `InvalidArgument`), and the
recipient-scoped reads with an empty recipient succeed, treating `""`
as an ordinary recipient value. -/
theorem c2_counterexample :
    memGetMail ([] : List Mail) "" = Except.error StoreErr.notFound ∧
    memGetMail ([] : List Mail) "" ≠ Except.error StoreErr.invalidArgument ∧
    memCountUnreadMails [{ c3mail with ID := "u1", RecipientID := "" }] "" =
      Except.ok 1 ∧
    memCountMailsWithAttachments
        [{ c3mail with
            ID := "u2",
            RecipientID := "",
            Attachments := some [("k", AttValue.anum "1")] }] "" = Except.ok 1 ∧
    memGetMailsByRecipient [{ c3mail with ID := "u1", RecipientID := "" }] "" 1 10 =
      Except.ok ([{ c3mail with ID := "u1", RecipientID := "" }], 1) := by
  refine ⟨rfl, ?_, rfl, rfl, rfl⟩
  intro h
  simp [memGetMail, findMail] at h

/-- Claim C2, amended.  The durable (GORM) backend rejects an empty
mail id (`GetMail`) and an empty recipient (`GetMailsByRecipient`,
`CountUnreadMails`, `CountMailsWithAttachments`) with
`InvalidArgument`, for every store state.  The in-memory backend
performs no such validation: `GetMail` with an empty id fails with
`NotFound` whenever no stored mail carries an empty id, and the three
recipient-scoped reads always succeed, with `""` matched like any other
recipient value. -/
theorem c2_empty_argument_validation :
    (∀ est : List MailEntity,
      gormGetMail est "" = Except.error StoreErr.invalidArgument) ∧
    (∀ (est : List MailEntity) (p s : Int),
      gormGetMailsByRecipient est "" p s = Except.error StoreErr.invalidArgument) ∧
    (∀ est : List MailEntity,
      gormCountUnreadMails est "" = Except.error StoreErr.invalidArgument) ∧
    (∀ est : List MailEntity,
      gormCountMailsWithAttachments est "" = Except.error StoreErr.invalidArgument) ∧
    (∀ st : List Mail, findMail st "" = none →
      memGetMail st "" = Except.error StoreErr.notFound) ∧
    (∀ (st : List Mail) (rid : String),
      memCountUnreadMails st rid =
        Except.ok (st.filter (fun m => m.RecipientID == rid && !m.ReadStatus)).length) ∧
    (∀ (st : List Mail) (rid : String), ∃ n,
      memCountMailsWithAttachments st rid = Except.ok n) ∧
    (∀ (st : List Mail) (rid : String) (p s : Int), ∃ r,
      memGetMailsByRecipient st rid p s = Except.ok r) := by
  refine ⟨fun est => rfl, fun est p s => rfl, fun est => rfl, fun est => rfl,
    ?_, fun st rid => rfl, fun st rid => ⟨_, rfl⟩, fun st rid p s => ⟨_, rfl⟩⟩
  intro st hnone
  simp only [memGetMail, hnone]

/-- Concrete instantiation of the validation theorem. -/
theorem c2_empty_argument_validation_witness :
    (findMail ([{ c3mail with ID := "w" }] : List Mail) "" = none) ∧
    gormGetMail ([] : List MailEntity) "" = Except.error StoreErr.invalidArgument ∧
    memGetMail ([{ c3mail with ID := "w" }] : List Mail) "" =
      Except.error StoreErr.notFound := by
  refine ⟨by decide, c2_empty_argument_validation.1 [], ?_⟩
  exact c2_empty_argument_validation.2.2.2.2.1 [{ c3mail with ID := "w" }] (by decide)

end Inboxer

namespace Inboxer

/-! ## Claim C1: tag filtering across the two backends -/

/-- A mail carrying the single tag `"abc"`. -/
def c1mailA : Mail := { c3mail with ID := "t1", Tags := some ["abc"] }

/-- A filter asking for tag `"a"` only. -/
def c1filterA : MailFilter :=
  { SenderID := "", RecipientID := "", ReadStatus := none, StartTime := none,
    EndTime := none, ExpiredOnly := false, Tags := ["a"] }

/-- A mail carrying the single tag `"x"`. -/
def c1mailX : Mail := { c3mail with ID := "t2", Tags := some ["x"] }

/-- A filter asking for tags `"x"` or `"y"`. -/
def c1filterXY : MailFilter :=
  { SenderID := "", RecipientID := "", ReadStatus := none, StartTime := none,
    EndTime := none, ExpiredOnly := false, Tags := ["x", "y"] }

/-- Claim C1 fails on the code: the durable backend's `LIKE`-based tag
predicate diverges from the shared engine in both directions.  With
filter tag `"a"` and stored tags `["abc"]`, the in-memory backend
selects nothing (no verbatim-equal tag) while the durable backend
selects the mail (`tags LIKE '%a%'` substring-matches the serialized
array); with filter tags `["x","y"]` and stored tags `["x"]`, the
in-memory backend selects the mail (OR across filter tags) while the
durable backend selects nothing (one `LIKE` conjunct per tag, combined
with AND). -/
theorem c1_tag_filter_divergence :
    (matchMail c1mailA (some c1filterA) 0 = false ∧
      gormMatchEntity (mailToEntity c1mailA) (some c1filterA) 0 = true ∧
      memQueryMails [c1mailA] (some c1filterA) 1 10 0 = Except.ok ([], 0) ∧
      gormQueryMails [mailToEntity c1mailA] (some c1filterA) 1 10 0 =
        Except.ok ([{ c1mailA with Attachments := some [] }], 1)) ∧
    (matchMail c1mailX (some c1filterXY) 0 = true ∧
      gormMatchEntity (mailToEntity c1mailX) (some c1filterXY) 0 = false ∧
      memQueryMails [c1mailX] (some c1filterXY) 1 10 0 =
        Except.ok ([c1mailX], 1) ∧
      gormQueryMails [mailToEntity c1mailX] (some c1filterXY) 1 10 0 =
        Except.ok ([], 0)) := by
  exact ⟨⟨rfl, rfl, rfl, rfl⟩, ⟨rfl, rfl, rfl, rfl⟩⟩

end Inboxer

namespace Inboxer

/-! ## Claim C4: log export completeness -/

/-- A durable row with creation time `n` and empty collections. -/
def c4ent (n : Nat) : MailEntity :=
  { ID := "e", SenderID := "s", RecipientID := "r", Title := "t", Content := "c",
    Attachments := "\x7b\x7d", ReadStatus := false, CreateTime := n,
    ExpireTime := 0, Tags := "[]" }

/-- The mail that `entityToMail` decodes `c4ent n` to. -/
def c4dec (n : Nat) : Mail :=
  { ID := "e", SenderID := "s", RecipientID := "r", Title := "t", Content := "c",
    Attachments := some [], ReadStatus := false, CreateTime := n,
    ExpireTime := 0, Tags := some [] }

/-- Decoding a `c4ent` row always succeeds. -/
theorem c4ent_decodes (n : Nat) : entityToMail (c4ent n) = Except.ok (c4dec n) := rfl

/-- The in-memory mail corresponding to `c4ent n`. -/
def c4mem (n : Nat) : Mail :=
  { ID := "e", SenderID := "s", RecipientID := "r", Title := "t", Content := "c",
    Attachments := none, ReadStatus := false, CreateTime := n,
    ExpireTime := 0, Tags := none }

/-- A table of 10001 rows, every one matching the nil filter. -/
def c4store : List MailEntity := (List.range 10001).map c4ent

/-- The corresponding in-memory store. -/
def c4memStore : List Mail := (List.range 10001).map c4mem

/-- The row-decoding loop succeeds on any list of decodable rows and
preserves its length. -/
theorem decodeAll_ok_length (l : List MailEntity)
    (h : ∀ e ∈ l, ∃ m, entityToMail e = Except.ok m) :
    ∃ ms, decodeAll l = Except.ok ms ∧ ms.length = l.length := by
  induction l with
  | nil => exact ⟨[], rfl, rfl⟩
  | cons e es ih =>
    obtain ⟨m, hm⟩ := h e (List.mem_cons_self e es)
    obtain ⟨ms, hms, hlen⟩ := ih (fun x hx => h x (List.mem_cons_of_mem e hx))
    refine ⟨m :: ms, ?_, by simp [hlen]⟩
    simp only [decodeAll, hm, hms]
    rfl

set_option maxRecDepth 4096 in
/-- Claim C4 fails on the durable backend: with 10001 stored rows all
matching the nil filter, `ExportMailLogs` (which internally queries
page 1 with the fixed limit 10000) serializes only 10000 mails, while
10001 rows match and the in-memory export serializes all 10001. -/
theorem c4_export_cap :
    Except.map (fun l => List.length l) (gormExportMails c4store none 0) =
      Except.ok 10000 ∧
    (c4store.filter (fun e => gormMatchEntity e none 0)).length = 10001 ∧
    (memExportMails c4memStore none 0).length = 10001 := by
  have hfilter : c4store.filter (fun e => gormMatchEntity e none 0) = c4store :=
    List.filter_eq_self.mpr (fun a _ => rfl)
  have hstorelen : c4store.length = 10001 := by
    simp [c4store]
  refine ⟨?_, by rw [hfilter, hstorelen], ?_⟩
  · unfold gormExportMails gormQueryMails
    rw [hfilter]
    simp only [gormPaginate]
    rw [hstorelen]
    rw [if_neg (by omega)]
    have hsortlen : (sortDescBy (fun e => e.CreateTime) c4store).length = 10001 := by
      rw [length_sortDescBy, hstorelen]
    have hrows : ∀ e ∈ ((sortDescBy (fun e => e.CreateTime) c4store).drop
        (((normPage 1 - 1) * normSize 10000).toNat)).take (normSize 10000).toNat,
        ∃ m, entityToMail e = Except.ok m := by
      intro e he
      have he2 : e ∈ sortDescBy (fun e => e.CreateTime) c4store :=
        List.mem_of_mem_drop (List.mem_of_mem_take he)
      have he3 : e ∈ c4store := by
        have hperm := perm_sortDescBy (fun e => e.CreateTime) c4store
        exact hperm.mem_iff.mp he2
      obtain ⟨n, _, hn⟩ := List.mem_map.mp he3
      exact ⟨c4dec n, by rw [← hn]; exact c4ent_decodes n⟩
    obtain ⟨ms, hms, hlen⟩ := decodeAll_ok_length _ hrows
    rw [hms]
    have hta : (normSize 10000).toNat = 10000 := by decide
    have htb : ((normPage 1 - 1) * normSize 10000).toNat = 0 := by decide
    rw [hta, htb] at hlen
    rw [List.length_take, List.length_drop, hsortlen] at hlen
    simp only [Except.map]
    have hms10000 : ms.length = 10000 := by omega
    rw [hms10000]
  · have hm : c4memStore.filter (fun m => matchMail m none 0) = c4memStore :=
      List.filter_eq_self.mpr (fun a _ => rfl)
    unfold memExportMails
    rw [length_sortDescBy, List.length_map, hm]
    simp [c4memStore]

end Inboxer

namespace Inboxer

/-! ## Claim C10: creation writes the generated id into the caller's
input -/

/-- Result of the in-memory batch loop: the caller's (possibly mutated)
input slots, the new store state, the returned ids, and the id
generator counter. -/
structure MemBatchResult where
  mutated : List (Option Mail)
  state : List Mail
  ids : List String
  counter : Nat

/-- Transpilation of `MemoryMailStore.CreateBatchMails`: nil entries are
skipped, an entry with an empty `ID` gets `idGen.GenerateID()` written
into it (modelled by `gen` applied to the running generator counter),
a deep copy is stored, and the id is appended to the result.  The
`mutated` component carries the caller's input list as it stands after
the call. -/
def memCreateBatchMails (st : List Mail) (ms : List (Option Mail)) (gen : Nat → String)
    (c : Nat) : MemBatchResult :=
  match ms with
  | [] => ⟨[], st, [], c⟩
  | none :: rest =>
    let r := memCreateBatchMails st rest gen c
    ⟨none :: r.mutated, r.state, r.ids, r.counter⟩
  | some m :: rest =>
    let p := if m.ID = "" then ({ m with ID := gen c }, c + 1) else (m, c)
    let r := memCreateBatchMails (putMail st (copyMail p.1)) rest gen p.2
    ⟨some p.1 :: r.mutated, r.state, p.1.ID :: r.ids, r.counter⟩

/-- Result of the durable batch loop: mutated input slots, the rows
accumulated for the single transactional insert, and the returned
ids. -/
structure GormBatchResult where
  mutated : List (Option Mail)
  entities : List MailEntity
  ids : List String

/-- Transpilation of `GormMailStore.CreateBatchMails` up to the
transactional insert: nil entries are skipped, an entry with an empty
`ID` gets the generated id written into it (the Go code derives it from
the clock and `len(ids)`, modelled by `gen` applied to the running
count of non-nil entries), its row is appended to the batch, and the id
is recorded. -/
def gormCreateBatchMails (ms : List (Option Mail)) (gen : Nat → String) (k : Nat) :
    GormBatchResult :=
  match ms with
  | [] => ⟨[], [], []⟩
  | none :: rest =>
    let r := gormCreateBatchMails rest gen k
    ⟨none :: r.mutated, r.entities, r.ids⟩
  | some m :: rest =>
    let m2 := if m.ID = "" then { m with ID := gen k } else m
    let r := gormCreateBatchMails rest gen (k + 1)
    ⟨some m2 :: r.mutated, mailToEntity m2 :: r.entities, m2.ID :: r.ids⟩

/-- Claim C10 — confirmed.  On both backends, `CreateMail` on a mail
with an empty `ID` writes the generated id into the caller's object —
afterwards the input equals the original in every field except `ID`,
which equals the returned id — and `CreateBatchMails` does the same for
every non-nil entry, returning the ids of the non-nil entries in input
order. -/
theorem c10_create_writes_id_back :
    (∀ (st : List Mail) (m : Mail) (newId : String), m.ID = "" →
      (memCreateMail st m newId).1 = { m with ID := (memCreateMail st m newId).2.2 } ∧
      (memCreateMail st m newId).2.2 = newId) ∧
    (∀ (est : List MailEntity) (m : Mail) (newId : String), m.ID = "" →
      (gormCreateMail est m newId).1 = { m with ID := (gormCreateMail est m newId).2.2 } ∧
      (gormCreateMail est m newId).2.2 = newId) ∧
    (∀ (st : List Mail) (ms : List (Option Mail)) (gen : Nat → String) (c k : Nat)
        (m : Mail), ms[k]? = some (some m) → m.ID = "" →
      ∃ i, (memCreateBatchMails st ms gen c).mutated[k]? = some (some { m with ID := i })) ∧
    (∀ (st : List Mail) (ms : List (Option Mail)) (gen : Nat → String) (c : Nat),
      (memCreateBatchMails st ms gen c).ids =
        ((memCreateBatchMails st ms gen c).mutated.filterMap (fun x => x)).map
          (fun m => m.ID)) ∧
    (∀ (ms : List (Option Mail)) (gen : Nat → String) (k j : Nat) (m : Mail),
      ms[j]? = some (some m) → m.ID = "" →
      ∃ i, (gormCreateBatchMails ms gen k).mutated[j]? = some (some { m with ID := i })) ∧
    (∀ (ms : List (Option Mail)) (gen : Nat → String) (k : Nat),
      (gormCreateBatchMails ms gen k).ids =
        ((gormCreateBatchMails ms gen k).mutated.filterMap (fun x => x)).map
          (fun m => m.ID)) := by
  refine ⟨?_, ?_, ?_, ?_, ?_, ?_⟩
  · intro st m newId h
    constructor <;> simp [memCreateMail, h]
  · intro est m newId h
    constructor <;> simp [gormCreateMail, h]
  · intro st ms gen c k m
    induction ms generalizing st c k with
    | nil => intro hk; simp at hk
    | cons o rest ih =>
      intro hk hid
      cases o with
      | none =>
        cases k with
        | zero => simp at hk
        | succ k2 =>
          simp only [List.getElem?_cons_succ] at hk
          obtain ⟨i, hi⟩ := ih st c k2 hk hid
          exact ⟨i, by simpa [memCreateBatchMails] using hi⟩
      | some m0 =>
        cases k with
        | zero =>
          simp only [List.getElem?_cons_zero, Option.some.injEq] at hk
          subst hk
          refine ⟨gen c, ?_⟩
          simp [memCreateBatchMails, hid]
        | succ k2 =>
          simp only [List.getElem?_cons_succ] at hk
          obtain ⟨i, hi⟩ := ih _ _ k2 hk hid
          exact ⟨i, by simpa [memCreateBatchMails] using hi⟩
  · intro st ms gen c
    induction ms generalizing st c with
    | nil => rfl
    | cons o rest ih =>
      cases o with
      | none => simpa [memCreateBatchMails, List.filterMap_cons] using ih st c
      | some m0 => simpa [memCreateBatchMails, List.filterMap_cons] using ih _ _
  · intro ms gen k j m
    induction ms generalizing k j with
    | nil => intro hj; simp at hj
    | cons o rest ih =>
      intro hj hid
      cases o with
      | none =>
        cases j with
        | zero => simp at hj
        | succ j2 =>
          simp only [List.getElem?_cons_succ] at hj
          obtain ⟨i, hi⟩ := ih k j2 hj hid
          exact ⟨i, by simpa [gormCreateBatchMails] using hi⟩
      | some m0 =>
        cases j with
        | zero =>
          simp only [List.getElem?_cons_zero, Option.some.injEq] at hj
          subst hj
          refine ⟨gen k, ?_⟩
          simp [gormCreateBatchMails, hid]
        | succ j2 =>
          simp only [List.getElem?_cons_succ] at hj
          obtain ⟨i, hi⟩ := ih (k + 1) j2 hj hid
          exact ⟨i, by simpa [gormCreateBatchMails] using hi⟩
  · intro ms gen k
    induction ms generalizing k with
    | nil => rfl
    | cons o rest ih =>
      cases o with
      | none => simpa [gormCreateBatchMails, List.filterMap_cons] using ih k
      | some m0 => simpa [gormCreateBatchMails, List.filterMap_cons] using ih (k + 1)

/-- Concrete instantiation of the id write-back theorem: a single
create on an id-less mail, and a batch whose first slot holds an
id-less mail. -/
theorem c10_create_writes_id_back_witness :
    ({ c3mail with ID := "" } : Mail).ID = "" ∧
    ((memCreateMail [] { c3mail with ID := "" } "gen0").1 =
        { { c3mail with ID := "" } with
            ID := (memCreateMail [] { c3mail with ID := "" } "gen0").2.2 } ∧
      (memCreateMail [] { c3mail with ID := "" } "gen0").2.2 = "gen0") ∧
    (∃ i, (memCreateBatchMails [] [some { c3mail with ID := "" }, none]
        (fun n => toString n) 0).mutated[0]? =
      some (some { { c3mail with ID := "" } with ID := i })) := by
  refine ⟨rfl, c10_create_writes_id_back.1 [] { c3mail with ID := "" } "gen0" rfl, ?_⟩
  exact c10_create_writes_id_back.2.2.1 [] [some { c3mail with ID := "" }, none]
    (fun n => toString n) 0 0 { c3mail with ID := "" } rfl rfl

end Inboxer

namespace Inboxer

/-- Concrete instantiation of the matching equivalence: a mail carrying
tag `"x"` satisfies both the code predicate and the spec predicate for
a filter listing tags `"x"` or `"y"`. -/
theorem c7_match_witness :
    matchMail c1mailX (some c1filterXY) 0 = true ∧
    matchSpec c1mailX (some c1filterXY) 0 := by
  refine ⟨rfl, ?_⟩
  exact (matchMail_iff_matchSpec c1mailX (some c1filterXY) 0).mp rfl

end Inboxer
